import Mathlib

/-!
The `pvoc` command-line driver of pvdoneright (Source/MainCL.cpp).

The function `pvoc` parses three options, validates the stretch ratio, opens a reader and an
output stream, looks up the output format, creates the writer, the two sample
buffers and the phase-vocoder state, and then pumps blocks from the reader
through the transform to the writer until the reader is exhausted or a read
fails.

The audio-format library (JUCE) and the phase-vocoder library (ltfat) are not
part of the repository.  Every call into them is a field of `Env`: the value
the call returns, and for the calls inside the loop a function of an abstract
collaborator state `σ` (stream position, vocoder state, buffers, writer).  The
driver's own control flow, its constants and its two local variables `valid`
and `readerPos` are transcribed statement by statement.  The order of the
collaborator calls is recorded in a trace of `Event`s.
-/

namespace PVDoneRight

/-! ## Doubles -/

/-- Values of a C++ `double`: a finite value `m * 2^e`, the two infinities, or a
NaN.  Every finite binary64 value has this form. -/
inductive Dbl where
  | nan : Dbl
  | negInf : Dbl
  | fin (m : Int) (e : Int) : Dbl
  | posInf : Dbl
  deriving DecidableEq

/-- The integer `m * 2^(e - base)`, for `base ≤ e`: the numerator of `m * 2^e`
over the common denominator `2^(-base)`. -/
def Dbl.scaled (m e base : Int) : Int := m * ((2 ^ (e - base).toNat : Nat) : Int)

/-- The C++ `a < b` on doubles: false as soon as one side is a NaN. -/
def Dbl.lt : Dbl → Dbl → Bool
  | .fin m1 e1, .fin m2 e2 =>
    decide (Dbl.scaled m1 e1 (min e1 e2) < Dbl.scaled m2 e2 (min e1 e2))
  | .negInf, .fin _ _ => true
  | .negInf, .posInf => true
  | .fin _ _, .posInf => true
  | _, _ => false

/-- The C++ `a <= b` on doubles: false as soon as one side is a NaN. -/
def Dbl.le : Dbl → Dbl → Bool
  | .fin m1 e1, .fin m2 e2 =>
    decide (Dbl.scaled m1 e1 (min e1 e2) ≤ Dbl.scaled m2 e2 (min e1 e2))
  | .negInf, .negInf => true
  | .negInf, .fin _ _ => true
  | .negInf, .posInf => true
  | .fin _ _, .posInf => true
  | .posInf, .posInf => true
  | _, _ => false

/-! ## Constants of MainCL.cpp -/

/-- The macro `#define INPUT_ARG "--input|-i"`. -/
def INPUT_ARG : String := "--input|-i"

/-- The macro `#define OUTPUT_ARG "--output|-o"`. -/
def OUTPUT_ARG : String := "--output|-o"

/-- The macro `#define TIME_ARG "--time|-t"`. -/
def TIME_ARG : String := "--time|-t"

/-- The constant `constexpr static double maxRatio = 10;`. -/
def maxRatio : Dbl := .fin 10 0

/-- The constant `constexpr static double minRatio = 0.1;`.  The binary64 value of the literal
`0.1` is `0x3FB999999999999A`, that is `7205759403792794 * 2^(-56)`. -/
def minRatio : Dbl := .fin 7205759403792794 (-56)

/-- The initial value `1.0` of `timeRatio`. -/
def defaultRatio : Dbl := .fin 1 0

/-- The constant `constexpr static int bufferSize = 4096;`. -/
def bufferSize : Int := 4096

/-- The `double` to `int` conversion of an argument: truncation towards zero.
A NaN or an infinity has no defined conversion and is mapped to `0`. -/
def Dbl.toInt : Dbl → Int
  | .fin m e => if 0 ≤ e then m * ((2 ^ e.toNat : Nat) : Int)
                else Int.tdiv m ((2 ^ (-e).toNat : Nat) : Int)
  | _ => 0

/-- The product `int * double`, for products that need no rounding (as
`bufferSize * maxRatio` does). -/
def Dbl.mulInt (n : Int) : Dbl → Dbl
  | .fin m e => .fin (n * m) e
  | .nan => .nan
  | .posInf => if 0 < n then .posInf else if n < 0 then .negInf else .nan
  | .negInf => if 0 < n then .negInf else if n < 0 then .posInf else .nan

/-- Length in samples of `inputBuffer`: the `int` made from
`bufferSize * maxRatio` in `AudioSampleBuffer inputBuffer(numChannels, bufferSize * maxRatio)`. -/
def inputBufferSamples : Int := (Dbl.mulInt bufferSize maxRatio).toInt

/-- Length in samples of `outputBuffer`. -/
def outputBufferSamples : Int := bufferSize

/-- Number of entries of `float* outPtr[10]`. -/
def outPtrCapacity : Nat := 10

/-- Return code carried by a `ConsoleApplication::fail` without a second
argument (the declared default), which `invokeCatchingFailures` hands back to
`main`. -/
def failReturnCode : Int := 1

/-- Result of a 32-bit `int` computation whose exact value is `x`, on a
two's-complement target.  Inside the `int` range this is `x`; outside it C++
leaves the result undefined, and the wrapped value is what the usual targets
give. -/
def wrapInt32 (x : Int) : Int := (x + 2147483648) % 4294967296 - 2147483648

/-- The `int` addition of `readerPos += inLen`. -/
def addInt32 (a b : Int) : Int := wrapInt32 (a + b)

/-! ## Data -/

/-- A `File`, identified by its full path name. -/
abbrev File := String

/-- The fields of `AudioFormatReader` that `pvoc` reads. -/
structure ReaderInfo where
  sampleRate : Dbl
  numChannels : Nat
  bitsPerSample : Nat
  metadataValues : List (String × String)
  deriving DecidableEq

/-- The places where `pvoc` stops through `ConsoleApplication::fail`. -/
inductive Failure where
  /-- Thrown inside `getExistingFileForOption` or `getFileForOption` -/
  | argument (msg : String) : Failure
  /-- Raised at line 34. -/
  | invalidTimeRatio (timeArg : String) : Failure
  /-- Raised at line 44. -/
  | invalidInputFile (path : String) : Failure
  /-- Raised at line 52. -/
  | outputStream (msg : String) : Failure
  /-- Raised at line 60. -/
  | unknownOutputFormat (ext : String) : Failure
  /-- Raised at line 81. -/
  | pvInit : Failure
  deriving DecidableEq

/-- The text handed to `ConsoleApplication::fail`. -/
def Failure.message : Failure → String
  | .argument msg => msg
  | .invalidTimeRatio timeArg => "Invalid time ratio: " ++ timeArg
  | .invalidInputFile path => "Invalid input file: " ++ path
  | .outputStream msg => msg
  | .unknownOutputFormat ext => "Unknown output format: " ++ ext
  | .pvInit => "Failed to initialize phase vocoder"

/-- Calls into the collaborators, in program order. -/
inductive Event where
  | getExistingFileForOption (option : String) : Event
  | getFileForOption (option : String) : Event
  | getValueForOption (option : String) : Event
  | registerBasicFormats : Event
  | createReaderFor (file : File) : Event
  | readerSetPosition (pos : Int) : Event
  | createOutputStream (file : File) : Event
  | streamSetPosition (pos : Int) : Event
  | streamTruncate : Event
  | findFormatForFileExtension (ext : String) : Event
  | createWriterFor (sampleRate : Dbl) (numChannels : Nat) (bitsPerSample : Nat)
      (metadataValues : List (String × String)) (quality : Int) : Event
  | allocInputBuffer (numChannels : Nat) (numSamples : Int) : Event
  | allocOutputBuffer (numChannels : Nat) (numSamples : Int) : Event
  | pvInit (stretchMax : Dbl) (numChannels : Nat) (bufLenMax : Int) : Event
  | nextinlen (lout : Int) (result : Int) : Event
  | read (startInBuffer : Int) (numSamples : Int) (readerStart : Int) (result : Bool) : Event
  | outPtrStore (ch : Nat) : Event
  | execute (inLen : Int) (numChannels : Nat) (ratio : Dbl) (lout : Int) : Event
  | write (start : Int) (numSamples : Int) : Event
  | flush : Event
  deriving DecidableEq

/-- The calls made inside the loop body, lines 88 to 96. -/
def Event.inLoop : Event → Bool
  | .nextinlen _ _ => true
  | .read _ _ _ _ => true
  | .outPtrStore _ => true
  | .execute _ _ _ _ => true
  | .write _ _ => true
  | _ => false

/-- What the collaborators answer during one run.  `σ` is their state while the
loop runs. -/
structure Env (σ : Type) where
  /-- Result of `argList.getExistingFileForOption(INPUT_ARG)`: the file, or the message it fails with -/
  inputFile : Except String File
  /-- Result of `argList.getFileForOption(OUTPUT_ARG)`: the file, or the message it fails with -/
  outputFile : Except String File
  /-- Result of `argList.getValueForOption(TIME_ARG)`, empty when the option is absent -/
  timeArg : String
  /-- Result of `String::getDoubleValue` -/
  getDoubleValue : String → Dbl
  /-- Result of `formatManager.createReaderFor`, `none` for a null reader -/
  createReaderFor : File → Option ReaderInfo
  /-- Result of `createOutputStream` then `failedToOpen`: `some msg` with the status message when it failed -/
  streamStatus : File → Option String
  /-- Result of `File::getFileExtension` -/
  getFileExtension : File → String
  /-- Whether `findFormatForFileExtension` returned a format -/
  findFormatForFileExtension : String → Bool
  /-- Whether `ltfat_pv_init_s` returned `LTFATERR_FAILED` -/
  pvInitFailed : Bool
  /-- State of the collaborators when the loop is reached. -/
  world : σ
  /-- Result of `reader->input->isExhausted()` -/
  isExhausted : σ → Bool
  /-- Result of `(int) ltfat_pv_nextinlen_s(pv, Lout)` -/
  nextinlen : σ → Int → Int × σ
  /-- Result of `reader->read(&inputBuffer, startInBuffer, numSamples, readerStart, true, true)` -/
  read : σ → Int → Int → Int → Bool × σ
  /-- Result of `ltfat_pv_execute_s(pv, inPtr, inLen, numChannels, ratio, Lout, outPtr)` -/
  execute : σ → Int → Nat → Dbl → Int → σ
  /-- Result of `writer->writeFromAudioSampleBuffer(outputBuffer, start, numSamples)` -/
  write : σ → Int → Int → σ

/-- The loop's variables: the collaborators' state, `valid`, `readerPos`, and
the calls made so far. -/
structure PumpState (σ : Type) where
  world : σ
  valid : Bool
  readerPos : Int
  trace : List Event

deriving instance DecidableEq for Except

/-- Result of a run.  The outcome is `none` when the loop did not end within
the given number of iterations, else the failure or the value returned.  The
trace holds the calls made (only those before the loop when the outcome is
`none`). -/
structure Run where
  outcome : Option (Except Failure Int)
  trace : List Event

variable {σ : Type}

/-! ## The program -/

/-- Lines 27 to 31: `1.0`, replaced by the parsed text when the text is not empty. -/
def timeRatio (env : Env σ) : Dbl :=
  if !env.timeArg.isEmpty then env.getDoubleValue env.timeArg else defaultRatio

/-- Line 32: `timeRatio < minRatio || timeRatio > maxRatio`. -/
def ratioInvalid (r : Dbl) : Bool := r.lt minRatio || maxRatio.lt r

/-- Line 87: `valid && !reader->input->isExhausted()`. -/
def pumpGuard (env : Env σ) (s : PumpState σ) : Bool :=
  s.valid && !env.isExhausted s.world

/-- Line 88: the length asked from the transform in the iteration that starts in `s`. -/
def requestedLen (env : Env σ) (s : PumpState σ) : Int :=
  (env.nextinlen s.world bufferSize).1

/-- Line 89: the result of the read in the iteration that starts in `s`. -/
def readResult (env : Env σ) (s : PumpState σ) : Bool :=
  (env.read (env.nextinlen s.world bufferSize).2 0 (requestedLen env s) s.readerPos).1

/-- Lines 92 to 94: the indices of `outPtr` stored to, `ch = 0, 1, ...` while
`ch < numChannels`. -/
def outPtrStores (numChannels : Nat) : List Event :=
  (List.range numChannels).map Event.outPtrStore

/-- The calls made by the iteration that starts in `s`, lines 88 to 96. -/
def pumpEvents (env : Env σ) (numChannels : Nat) (ratio : Dbl) (s : PumpState σ) : List Event :=
  [Event.nextinlen bufferSize (requestedLen env s),
   Event.read 0 (requestedLen env s) s.readerPos (readResult env s)]
  ++ outPtrStores numChannels
  ++ [Event.execute (requestedLen env s) numChannels ratio bufferSize,
      Event.write 0 bufferSize]

/-- One iteration of the loop body, lines 88 to 96. -/
def pumpBody (env : Env σ) (numChannels : Nat) (ratio : Dbl) (s : PumpState σ) : PumpState σ :=
  let r1 := env.nextinlen s.world bufferSize
  let inLen := r1.1
  let r2 := env.read r1.2 0 inLen s.readerPos
  let w3 := env.execute r2.2 inLen numChannels ratio bufferSize
  let w4 := env.write w3 0 bufferSize
  { world := w4
    valid := r2.1
    readerPos := addInt32 s.readerPos inLen
    trace := s.trace ++ pumpEvents env numChannels ratio s }

/-- The `while` loop of lines 87 to 97, run for at most `fuel` iterations. -/
def pumpLoop (env : Env σ) (numChannels : Nat) (ratio : Dbl) :
    Nat → PumpState σ → Option (PumpState σ)
  | 0, s => if pumpGuard env s then none else some s
  | fuel + 1, s =>
    if pumpGuard env s then pumpLoop env numChannels ratio fuel (pumpBody env numChannels ratio s)
    else some s

/-- Lines 85 and 86: `valid = true`, `readerPos = 0`. -/
def pumpStart (env : Env σ) (trace : List Event) : PumpState σ :=
  { world := env.world, valid := true, readerPos := 0, trace := trace }

/-- Calls of lines 24 to 28. -/
def argEvents : List Event :=
  [Event.getExistingFileForOption INPUT_ARG, Event.getFileForOption OUTPUT_ARG,
   Event.getValueForOption TIME_ARG]

/-- Calls of lines 37 to 41. -/
def readerEvents (inputFile : File) : List Event :=
  [Event.registerBasicFormats, Event.createReaderFor inputFile]

/-- Calls of lines 46 to 51. -/
def streamEvents (outputFile : File) : List Event :=
  [Event.readerSetPosition 0, Event.createOutputStream outputFile]

/-- Calls of lines 54 to 57. -/
def formatEvents (ext : String) : List Event :=
  [Event.streamSetPosition 0, Event.streamTruncate, Event.findFormatForFileExtension ext]

/-- Calls of lines 63 to 79. -/
def writerEvents (rd : ReaderInfo) : List Event :=
  [Event.createWriterFor rd.sampleRate rd.numChannels rd.bitsPerSample rd.metadataValues 0,
   Event.allocInputBuffer rd.numChannels inputBufferSamples,
   Event.allocOutputBuffer rd.numChannels outputBufferSamples,
   Event.pvInit maxRatio rd.numChannels 4096]

/-- Everything up to the loop: the calls of lines 24 to 82. -/
def setupTrace (inputFile outputFile : File) (ext : String) (rd : ReaderInfo) : List Event :=
  argEvents ++ readerEvents inputFile ++ streamEvents outputFile ++ formatEvents ext
    ++ writerEvents rd

/-- The function `pvoc`, lines 22 to 100, with the loop run for at most `fuel`
iterations. -/
def pvoc (env : Env σ) (fuel : Nat) : Run :=
  match env.inputFile with
  | .error msg => ⟨some (.error (.argument msg)), [Event.getExistingFileForOption INPUT_ARG]⟩
  | .ok inputFile =>
    match env.outputFile with
    | .error msg =>
      ⟨some (.error (.argument msg)),
        [Event.getExistingFileForOption INPUT_ARG, Event.getFileForOption OUTPUT_ARG]⟩
    | .ok outputFile =>
      if ratioInvalid (timeRatio env) then
        ⟨some (.error (.invalidTimeRatio env.timeArg)), argEvents⟩
      else
        match env.createReaderFor inputFile with
        | none =>
          ⟨some (.error (.invalidInputFile inputFile)), argEvents ++ readerEvents inputFile⟩
        | some rd =>
          match env.streamStatus outputFile with
          | some msg =>
            ⟨some (.error (.outputStream msg)),
              argEvents ++ readerEvents inputFile ++ streamEvents outputFile⟩
          | none =>
            if !env.findFormatForFileExtension (env.getFileExtension outputFile) then
              ⟨some (.error (.unknownOutputFormat (env.getFileExtension outputFile))),
                argEvents ++ readerEvents inputFile ++ streamEvents outputFile
                  ++ formatEvents (env.getFileExtension outputFile)⟩
            else if env.pvInitFailed then
              ⟨some (.error .pvInit),
                setupTrace inputFile outputFile (env.getFileExtension outputFile) rd⟩
            else
              match pumpLoop env rd.numChannels (timeRatio env) fuel
                  (pumpStart env
                    (setupTrace inputFile outputFile (env.getFileExtension outputFile) rd)) with
              | none =>
                ⟨none, setupTrace inputFile outputFile (env.getFileExtension outputFile) rd⟩
              | some s => ⟨some (.ok 0), s.trace ++ [Event.flush]⟩

/-- The exit code of `main`: `invokeCatchingFailures` returns the failure's
return code, or what `pvoc` returned. -/
def exitCode : Except Failure Int → Int
  | .error _ => failReturnCode
  | .ok code => code

/-- The state after `k` iterations of the loop body, started in `s`. -/
def afterIterations (env : Env σ) (numChannels : Nat) (ratio : Dbl) (k : Nat)
    (s : PumpState σ) : PumpState σ :=
  (pumpBody env numChannels ratio)^[k] s

/-- Sum of the lengths requested in the first `k` iterations started in `s`. -/
def requestedSum (env : Env σ) (numChannels : Nat) (ratio : Dbl) (s : PumpState σ) : Nat → Int
  | 0 => 0
  | k + 1 => requestedSum env numChannels ratio s k
      + requestedLen env (afterIterations env numChannels ratio k s)

/-- Number of blocks handed to the writer. -/
def blocksWritten : List Event → Nat
  | [] => 0
  | Event.write _ _ :: rest => blocksWritten rest + 1
  | _ :: rest => blocksWritten rest

/-- Samples per channel handed to the writer. -/
def samplesWritten : List Event → Int
  | [] => 0
  | Event.write _ n :: rest => samplesWritten rest + n
  | _ :: rest => samplesWritten rest

/-- The text `part` occurs in the text `whole`. -/
def containsText (whole part : String) : Prop := part.data <:+: whole.data

instance (whole part : String) : Decidable (containsText whole part) := by
  unfold containsText; infer_instance

/-! ## Concrete collaborators -/

/-- The extension of a path, from its last dot on; empty when it has no dot. -/
def fileExtension (path : String) : String :=
  if '.' ∈ path.data then
    String.mk ('.' :: (path.data.reverse.takeWhile (fun c => c != '.')).reverse)
  else ""

/-- A set of collaborators to run `pvoc` on.  The collaborator state is the
frame the stream has reached; the stream is exhausted once that frame is at
least `frames`; the transform always asks for `inLen` frames; every read
returns `readOk` and leaves the stream at the end of the range it was asked
for; the input has `channels` channels at 44100 Hz and 16 bits. -/
def sampleEnv (inputFile : Except String File) (outputPath timeArg : String) (parsed : Dbl)
    (channels : Nat) (frames inLen : Int) (readOk : Bool) : Env Int where
  inputFile := inputFile
  outputFile := .ok outputPath
  timeArg := timeArg
  getDoubleValue := fun _ => parsed
  createReaderFor := fun _ => some ⟨.fin 44100 0, channels, 16, []⟩
  streamStatus := fun _ => none
  getFileExtension := fileExtension
  findFormatForFileExtension := fun ext => decide (ext ∈ [".wav", ".aiff", ".flac", ".ogg"])
  pvInitFailed := false
  world := 0
  isExhausted := fun pos => decide (frames ≤ pos)
  nextinlen := fun pos _ => (inLen, pos)
  read := fun _ _ numSamples readerStart => (readOk, readerStart + numSamples)
  execute := fun pos _ _ _ _ => pos
  write := fun pos _ _ => pos

/-- The run `pvoc -i in.wav -o out.wav` without a time option, on a mono input
of 10000 frames; the transform asks for 4096 frames each time. -/
def envDefault : Env Int :=
  sampleEnv (.ok "in.wav") "out.wav" "" (.fin 0 0) 1 10000 4096 true

/-- The run `pvoc -i in.wav -o out.wav -t 0.1`: the text parses to the double
`0.1`; the transform asks for 40960 frames each time. -/
def envTenth : Env Int :=
  sampleEnv (.ok "in.wav") "out.wav" "0.1" minRatio 1 10000 40960 true

/-- The run `pvoc -i in.wav -o out.wav -t 2` on a stereo input of 10000 frames;
the transform asks for 2048 frames each time. -/
def envTwo : Env Int :=
  sampleEnv (.ok "in.wav") "out.wav" "2" (.fin 2 0) 2 10000 2048 true

/-- The run `pvoc -i in.wav -o out.wav -t abc` with an existing `in.wav`; the
text parses to `0.0`. -/
def envAbc : Env Int :=
  sampleEnv (.ok "in.wav") "out.wav" "abc" (.fin 0 0) 1 10000 4096 true

/-- The run `pvoc -i in.wav -o out.wav -t abc` where `in.wav` does not exist:
`getExistingFileForOption` fails. -/
def envAbcNoInput : Env Int :=
  sampleEnv (.error "Could not find file: in.wav") "out.wav" "abc" (.fin 0 0) 1 10000 4096 true

/-- The run `pvoc -i in.wav -o out.xyz -t 2`. -/
def envXyz : Env Int :=
  sampleEnv (.ok "in.wav") "out.xyz" "2" (.fin 2 0) 2 10000 2048 true

/-- The run `pvoc -i in.wav -o out.wav` on an input whose reads fail. -/
def envReadFails : Env Int :=
  sampleEnv (.ok "in.wav") "out.wav" "" (.fin 0 0) 1 10000 4096 false

/-- The function `log` is a record the collaborators keep of the calls made to
them: each of the four calls of the loop body appends its own entry, with the
arguments it was given and the value it gave back, and changes nothing else of
the record. -/
def LogsCalls (env : Env σ) (log : σ → List Event) : Prop :=
  (∀ w l, log (env.nextinlen w l).2 = log w ++ [Event.nextinlen l (env.nextinlen w l).1]) ∧
  (∀ w a n p, log (env.read w a n p).2 = log w ++ [Event.read a n p (env.read w a n p).1]) ∧
  (∀ w n c q l, log (env.execute w n c q l) = log w ++ [Event.execute n c q l]) ∧
  (∀ w a n, log (env.write w a n) = log w ++ [Event.write a n])

/-- Collaborators whose state is the list of the calls made to them so far: a
stereo input, requests of 2048 frames, reads that succeed, and a stream that is
exhausted once three blocks have been written. -/
def envLogging : Env (List Event) where
  inputFile := .ok "in.wav"
  outputFile := .ok "out.wav"
  timeArg := ""
  getDoubleValue := fun _ => .fin 0 0
  createReaderFor := fun _ => some ⟨.fin 44100 0, 2, 16, []⟩
  streamStatus := fun _ => none
  getFileExtension := fileExtension
  findFormatForFileExtension := fun ext => decide (ext ∈ [".wav", ".aiff", ".flac", ".ogg"])
  pvInitFailed := false
  world := []
  isExhausted := fun calls => decide (3 ≤ blocksWritten calls)
  nextinlen := fun calls l => (2048, calls ++ [Event.nextinlen l 2048])
  read := fun calls a n p => (true, calls ++ [Event.read a n p true])
  execute := fun calls n c q l => calls ++ [Event.execute n c q l]
  write := fun calls a n => calls ++ [Event.write a n]

@[simp] theorem pumpBody_trace_eq (env : Env σ) (nc : Nat) (r : Dbl) (s : PumpState σ) :
    (pumpBody env nc r s).trace = s.trace ++ pumpEvents env nc r s := rfl

@[simp] theorem pumpBody_readerPos_eq (env : Env σ) (nc : Nat) (r : Dbl) (s : PumpState σ) :
    (pumpBody env nc r s).readerPos = addInt32 s.readerPos (requestedLen env s) := rfl

@[simp] theorem pumpBody_valid_eq (env : Env σ) (nc : Nat) (r : Dbl) (s : PumpState σ) :
    (pumpBody env nc r s).valid = readResult env s := rfl

theorem afterIterations_zero (env : Env σ) (nc : Nat) (r : Dbl) (s : PumpState σ) :
    afterIterations env nc r 0 s = s := rfl

theorem afterIterations_succ (env : Env σ) (nc : Nat) (r : Dbl) (k : Nat) (s : PumpState σ) :
    afterIterations env nc r (k + 1) s = pumpBody env nc r (afterIterations env nc r k s) := by
  unfold afterIterations
  exact Function.iterate_succ_apply' _ _ _

theorem afterIterations_shift (env : Env σ) (nc : Nat) (r : Dbl) (k : Nat) (s : PumpState σ) :
    afterIterations env nc r (k + 1) s = afterIterations env nc r k (pumpBody env nc r s) := by
  unfold afterIterations
  exact Function.iterate_succ_apply _ _ _

theorem wrapInt32_of_range (x : Int) (hlo : -2147483648 ≤ x) (hhi : x ≤ 2147483647) :
    wrapInt32 x = x := by
  unfold wrapInt32
  rw [Int.emod_eq_of_lt (by omega) (by omega)]
  omega

/-- A loop that returns has run some number `k` of iterations, at most the
fuel: the guard held before each and fails in the state returned. -/
theorem pumpLoop_some_iff_iterations (env : Env σ) (nc : Nat) (r : Dbl) :
    ∀ (fuel : Nat) (s s1 : PumpState σ), pumpLoop env nc r fuel s = some s1 →
      ∃ k, k ≤ fuel ∧ s1 = afterIterations env nc r k s ∧ pumpGuard env s1 = false ∧
        ∀ j, j < k → pumpGuard env (afterIterations env nc r j s) = true := by
  intro fuel
  induction fuel with
  | zero =>
    intro s s1 h
    by_cases hg : pumpGuard env s = true
    · simp [pumpLoop, hg] at h
    · simp [pumpLoop, hg] at h
      subst h
      exact ⟨0, le_refl _, rfl, by simpa using hg, fun j hj => absurd hj (Nat.not_lt_zero j)⟩
  | succ fuel ih =>
    intro s s1 h
    by_cases hg : pumpGuard env s = true
    · simp [pumpLoop, hg] at h
      obtain ⟨k, hk, hs1, hstop, hgo⟩ := ih _ _ h
      refine ⟨k + 1, by omega, by rw [afterIterations_shift]; exact hs1, hstop, ?_⟩
      intro j hj
      cases j with
      | zero => rwa [afterIterations_zero]
      | succ j =>
        rw [afterIterations_shift]
        exact hgo j (by omega)
    · simp [pumpLoop, hg] at h
      subst h
      exact ⟨0, Nat.zero_le _, rfl, by simpa using hg, fun j hj => absurd hj (Nat.not_lt_zero j)⟩

theorem blocksWritten_append (a b : List Event) :
    blocksWritten (a ++ b) = blocksWritten a + blocksWritten b := by
  induction a with
  | nil => simp [blocksWritten]
  | cons e rest ih =>
    rw [List.cons_append]
    cases e <;> (simp only [blocksWritten, ih]; try omega)

theorem samplesWritten_append (a b : List Event) :
    samplesWritten (a ++ b) = samplesWritten a + samplesWritten b := by
  induction a with
  | nil => simp [samplesWritten]
  | cons e rest ih =>
    rw [List.cons_append]
    cases e <;> (simp only [samplesWritten, ih]; try omega)

theorem blocksWritten_outPtrStores (n : Nat) : blocksWritten (outPtrStores n) = 0 := by
  unfold outPtrStores
  induction (List.range n) with
  | nil => rfl
  | cons a l ih => simpa [blocksWritten] using ih

theorem samplesWritten_outPtrStores (n : Nat) : samplesWritten (outPtrStores n) = 0 := by
  unfold outPtrStores
  induction (List.range n) with
  | nil => rfl
  | cons a l ih => simpa [samplesWritten] using ih

theorem blocksWritten_pumpEvents (env : Env σ) (nc : Nat) (r : Dbl) (s : PumpState σ) :
    blocksWritten (pumpEvents env nc r s) = 1 := by
  simp [pumpEvents, blocksWritten_append, blocksWritten_outPtrStores, blocksWritten]

theorem samplesWritten_pumpEvents (env : Env σ) (nc : Nat) (r : Dbl) (s : PumpState σ) :
    samplesWritten (pumpEvents env nc r s) = bufferSize := by
  simp [pumpEvents, samplesWritten_append, samplesWritten_outPtrStores, samplesWritten]

theorem blocksWritten_setupTrace (i o : File) (ext : String) (rd : ReaderInfo) :
    blocksWritten (setupTrace i o ext rd) = 0 := rfl

theorem samplesWritten_setupTrace (i o : File) (ext : String) (rd : ReaderInfo) :
    samplesWritten (setupTrace i o ext rd) = 0 := rfl

theorem mem_outPtrStores (n ch : Nat) : Event.outPtrStore ch ∈ outPtrStores n ↔ ch < n := by
  simp [outPtrStores]

theorem outPtrStore_mem_pumpEvents (env : Env σ) (nc : Nat) (r : Dbl) (s : PumpState σ)
    (ch : Nat) : Event.outPtrStore ch ∈ pumpEvents env nc r s ↔ ch < nc := by
  simp [pumpEvents, mem_outPtrStores]

theorem write_mem_pumpEvents (env : Env σ) (nc : Nat) (r : Dbl) (s : PumpState σ)
    (a n : Int) : Event.write a n ∈ pumpEvents env nc r s ↔ a = 0 ∧ n = bufferSize := by
  simp [pumpEvents, outPtrStores]

/-- Without overflow the cursor after `k` iterations is the sum of the lengths
requested so far. -/
theorem readerPos_afterIterations (env : Env σ) (nc : Nat) (r : Dbl) (s : PumpState σ)
    (h0 : s.readerPos = 0) :
    ∀ k : Nat,
      (∀ j, j ≤ k → -2147483648 ≤ requestedSum env nc r s j ∧
        requestedSum env nc r s j ≤ 2147483647) →
      (afterIterations env nc r k s).readerPos = requestedSum env nc r s k := by
  intro k
  induction k with
  | zero => intro _; simpa [afterIterations_zero, requestedSum] using h0
  | succ k ih =>
    intro hrange
    have hk := ih (fun j hj => hrange j (by omega))
    have hr := hrange (k + 1) (le_refl _)
    rw [afterIterations_succ, pumpBody_readerPos_eq, hk, addInt32]
    simp only [requestedSum] at hr ⊢
    exact wrapInt32_of_range _ hr.1 hr.2

/-! ## The loop: output pacing, cursor, pointer array, termination -/

/-- C6: every iteration of the pump loop (with at most 10 channels, so that the
stores to `outPtr` stay inside it) calls the transform once, for one block of
`bufferSize = 4096` samples per channel, and then the writer once, with
`write(outputBuffer, 0, bufferSize)`, whatever input length the transform asked
for: in any record `log` the collaborators keep of the calls made to them, the
iteration adds exactly the four calls of lines 88, 89, 95 and 96, and after `k`
iterations the writer has received `k` more blocks, `4096 * k` samples per
channel.  The trace kept by the program agrees. -/
theorem pump_writes_one_block_per_iteration (env : Env σ) (nc : Nat) (r : Dbl)
    (s : PumpState σ) (i o : File) (ext : String) (rd : ReaderInfo) (k : Nat)
    (log : σ → List Event) (hnc : nc ≤ outPtrCapacity) (hlog : LogsCalls env log) :
    bufferSize = 4096 ∧
    log (pumpBody env nc r s).world
      = log s.world ++
        [Event.nextinlen 4096 (requestedLen env s),
         Event.read 0 (requestedLen env s) s.readerPos (readResult env s),
         Event.execute (requestedLen env s) nc r 4096,
         Event.write 0 4096] ∧
    blocksWritten (log (pumpBody env nc r s).world) = blocksWritten (log s.world) + 1 ∧
    blocksWritten (log (afterIterations env nc r k s).world)
      = blocksWritten (log s.world) + k ∧
    samplesWritten (log (afterIterations env nc r k s).world)
      = samplesWritten (log s.world) + 4096 * k ∧
    (log env.world = [] →
      blocksWritten (log (afterIterations env nc r k
        (pumpStart env (setupTrace i o ext rd))).world) = k ∧
      samplesWritten (log (afterIterations env nc r k
        (pumpStart env (setupTrace i o ext rd))).world) = 4096 * k) ∧
    blocksWritten (pumpEvents env nc r s) = 1 ∧
    (∀ a n, Event.write a n ∈ pumpEvents env nc r s ↔ a = 0 ∧ n = 4096) ∧
    (∀ n c q l, Event.execute n c q l ∈ pumpEvents env nc r s ↔
      n = requestedLen env s ∧ c = nc ∧ q = r ∧ l = 4096) ∧
    (∀ ch, Event.outPtrStore ch ∈ pumpEvents env nc r s → ch < outPtrCapacity) ∧
    blocksWritten (afterIterations env nc r k s).trace = blocksWritten s.trace + k ∧
    samplesWritten (afterIterations env nc r k s).trace = samplesWritten s.trace + 4096 * k ∧
    blocksWritten (afterIterations env nc r k (pumpStart env (setupTrace i o ext rd))).trace = k ∧
    samplesWritten (afterIterations env nc r k (pumpStart env (setupTrace i o ext rd))).trace
      = 4096 * k := by
  obtain ⟨hlnext, hlread, hlexec, hlwrite⟩ := hlog
  have hbody : ∀ s : PumpState σ, log (pumpBody env nc r s).world
      = log s.world ++
        [Event.nextinlen 4096 (requestedLen env s),
         Event.read 0 (requestedLen env s) s.readerPos (readResult env s),
         Event.execute (requestedLen env s) nc r 4096,
         Event.write 0 4096] := by
    intro s
    show log (env.write (env.execute
        (env.read (env.nextinlen s.world bufferSize).2 0
          (env.nextinlen s.world bufferSize).1 s.readerPos).2
        (env.nextinlen s.world bufferSize).1 nc r bufferSize) 0 bufferSize) = _
    rw [hlwrite, hlexec, hlread, hlnext]
    simp [requestedLen, readResult, bufferSize]
  have hbody1 : ∀ s : PumpState σ,
      blocksWritten (log (pumpBody env nc r s).world) = blocksWritten (log s.world) + 1 := by
    intro s
    rw [hbody, blocksWritten_append]
    rfl
  have hbodyS : ∀ s : PumpState σ,
      samplesWritten (log (pumpBody env nc r s).world)
        = samplesWritten (log s.world) + 4096 := by
    intro s
    rw [hbody, samplesWritten_append]
    simp [samplesWritten]
  have hlb : ∀ (k : Nat) (s : PumpState σ),
      blocksWritten (log (afterIterations env nc r k s).world)
        = blocksWritten (log s.world) + k := by
    intro k
    induction k with
    | zero => intro s; simp [afterIterations_zero]
    | succ k ih =>
      intro s
      rw [afterIterations_succ, hbody1, ih]
      omega
  have hls : ∀ (k : Nat) (s : PumpState σ),
      samplesWritten (log (afterIterations env nc r k s).world)
        = samplesWritten (log s.world) + 4096 * k := by
    intro k
    induction k with
    | zero => intro s; simp [afterIterations_zero]
    | succ k ih =>
      intro s
      rw [afterIterations_succ, hbodyS, ih]
      push_cast
      ring
  have hb : ∀ (k : Nat) (s : PumpState σ),
      blocksWritten (afterIterations env nc r k s).trace = blocksWritten s.trace + k := by
    intro k
    induction k with
    | zero => intro s; simp [afterIterations_zero]
    | succ k ih =>
      intro s
      rw [afterIterations_succ, pumpBody_trace_eq, blocksWritten_append, ih,
        blocksWritten_pumpEvents]
      omega
  have hs : ∀ (k : Nat) (s : PumpState σ),
      samplesWritten (afterIterations env nc r k s).trace
        = samplesWritten s.trace + 4096 * k := by
    intro k
    induction k with
    | zero => intro s; simp [afterIterations_zero]
    | succ k ih =>
      intro s
      rw [afterIterations_succ, pumpBody_trace_eq, samplesWritten_append, ih,
        samplesWritten_pumpEvents]
      simp only [bufferSize]
      push_cast
      ring
  refine ⟨rfl, hbody s, hbody1 s, hlb k s, hls k s, ?_, blocksWritten_pumpEvents env nc r s,
    ?_, ?_, ?_, hb k s, hs k s, ?_, ?_⟩
  · intro h0
    rw [hlb, hls]
    simp [pumpStart, h0, blocksWritten, samplesWritten]
  · intro a n
    exact write_mem_pumpEvents env nc r s a n
  · intro n c q l
    simp [pumpEvents, outPtrStores, bufferSize]
  · intro ch hch
    have := (outPtrStore_mem_pumpEvents env nc r s ch).1 hch
    omega
  · rw [hb]
    simp [pumpStart, blocksWritten_setupTrace]
  · rw [hs]
    simp [pumpStart, samplesWritten_setupTrace]

/-- C8: the read cursor starts at 0; each iteration adds to it the length asked
from the transform in that iteration and nothing else, whether the read
succeeded or not; so, as long as the sums of the requested lengths stay inside
the `int` range, the cursor at the start of iteration `k` is the sum of the
first `k` requested lengths, the read of iteration `k` is issued at that
position, and the next cursor is larger by exactly the requested length. -/
theorem readerPos_is_sum_of_requests (env : Env σ) (nc : Nat) (r : Dbl) (t : List Event)
    (k : Nat)
    (hrange : ∀ j, j ≤ k + 1 →
      -2147483648 ≤ requestedSum env nc r (pumpStart env t) j ∧
      requestedSum env nc r (pumpStart env t) j ≤ 2147483647) :
    (pumpStart env t).readerPos = 0 ∧
    (∀ s : PumpState σ,
      (pumpBody env nc r s).readerPos = addInt32 s.readerPos (requestedLen env s)) ∧
    (afterIterations env nc r k (pumpStart env t)).readerPos
      = requestedSum env nc r (pumpStart env t) k ∧
    (afterIterations env nc r (k + 1) (pumpStart env t)).readerPos
      = (afterIterations env nc r k (pumpStart env t)).readerPos
        + requestedLen env (afterIterations env nc r k (pumpStart env t)) ∧
    Event.read 0 (requestedLen env (afterIterations env nc r k (pumpStart env t)))
        (requestedSum env nc r (pumpStart env t) k)
        (readResult env (afterIterations env nc r k (pumpStart env t)))
      ∈ (afterIterations env nc r (k + 1) (pumpStart env t)).trace := by
  have hk := readerPos_afterIterations env nc r (pumpStart env t) rfl k
    (fun j hj => hrange j (by omega))
  have hk1 := readerPos_afterIterations env nc r (pumpStart env t) rfl (k + 1) hrange
  refine ⟨rfl, fun s => rfl, hk, ?_, ?_⟩
  · rw [hk1, hk]
    rfl
  · rw [afterIterations_succ, pumpBody_trace_eq, ← hk]
    simp [pumpEvents]

/-- C10: `outPtr` has 10 entries; an iteration stores to `outPtr[ch]` for exactly
the indices `ch < numChannels`; all these stores are inside the array exactly
when `numChannels ≤ 10`, and with more than 10 channels the iteration stores to
index 10, which is outside. -/
theorem outPtr_stores_in_bounds_iff (env : Env σ) (nc : Nat) (r : Dbl) (s : PumpState σ) :
    outPtrCapacity = 10 ∧
    (∀ ch, Event.outPtrStore ch ∈ pumpEvents env nc r s ↔ ch < nc) ∧
    ((∀ ch, Event.outPtrStore ch ∈ pumpEvents env nc r s → ch < outPtrCapacity) ↔ nc ≤ 10) ∧
    (10 < nc → ∃ ch, Event.outPtrStore ch ∈ pumpEvents env nc r s ∧ ¬ ch < outPtrCapacity) := by
  refine ⟨rfl, outPtrStore_mem_pumpEvents env nc r s, ?_, ?_⟩
  · constructor
    · intro h
      by_contra hn
      have := h 10 ((outPtrStore_mem_pumpEvents env nc r s 10).2 (by omega))
      simp [outPtrCapacity] at this
    · intro h ch hch
      have := (outPtrStore_mem_pumpEvents env nc r s ch).1 hch
      simp only [outPtrCapacity]
      omega
  · intro h
    exact ⟨10, (outPtrStore_mem_pumpEvents env nc r s 10).2 h, by simp [outPtrCapacity]⟩

theorem ratioInvalid_of_le (r : Dbl) (hlo : Dbl.le minRatio r = true)
    (hhi : Dbl.le r maxRatio = true) : ratioInvalid r = false := by
  cases r with
  | nan => simp [Dbl.le, minRatio] at hlo
  | negInf => simp [Dbl.le, minRatio] at hlo
  | posInf => simp [Dbl.le, maxRatio] at hhi
  | fin m e =>
    simp only [Dbl.le, minRatio, maxRatio, decide_eq_true_eq] at hlo hhi
    simp only [ratioInvalid, Dbl.lt, minRatio, maxRatio, Bool.or_eq_false_iff,
      decide_eq_false_iff_not, not_lt]
    constructor
    · rw [min_comm]; exact hlo
    · rw [min_comm]; exact hhi

theorem containsText_append (a b : String) : containsText (a ++ b) b := by
  unfold containsText
  rw [String.data_append]
  exact (List.suffix_append _ _).isInfix

/-- The calls made inside the loop body. -/
theorem pumpEvents_inLoop (env : Env σ) (nc : Nat) (r : Dbl) (s : PumpState σ) (e : Event)
    (he : e ∈ pumpEvents env nc r s) : e.inLoop = true := by
  simp only [pumpEvents, outPtrStores, List.mem_append, List.mem_cons, List.mem_map,
    List.mem_range, List.mem_singleton, List.not_mem_nil, or_false] at he
  rcases he with ((rfl | rfl) | ⟨ch, _, rfl⟩) | rfl | rfl <;> rfl

theorem afterIterations_trace (env : Env σ) (nc : Nat) (r : Dbl) :
    ∀ (k : Nat) (s : PumpState σ), ∃ l : List Event,
      (afterIterations env nc r k s).trace = s.trace ++ l ∧ ∀ e ∈ l, e.inLoop = true := by
  intro k
  induction k with
  | zero => intro s; exact ⟨[], by simp [afterIterations_zero], by simp⟩
  | succ k ih =>
    intro s
    obtain ⟨l, hl, hin⟩ := ih s
    refine ⟨l ++ pumpEvents env nc r (afterIterations env nc r k s), ?_, ?_⟩
    · rw [afterIterations_succ, pumpBody_trace_eq, hl, List.append_assoc]
    · intro e he
      rcases List.mem_append.1 he with h | h
      · exact hin e h
      · exact pumpEvents_inLoop env nc r _ e h

/-- The trace of a run that got past the format lookup and the vocoder
initialisation: the setup calls, then calls of the loop body, then possibly the
flush. -/
theorem pvoc_trace_past_setup (env : Env σ) (fuel : Nat) (i o : File) (rd : ReaderInfo)
    (hi : env.inputFile = .ok i) (ho : env.outputFile = .ok o)
    (hr : ratioInvalid (timeRatio env) = false)
    (hrd : env.createReaderFor i = some rd) (hst : env.streamStatus o = none)
    (hf : env.findFormatForFileExtension (env.getFileExtension o) = true) :
    ∃ l : List Event,
      (pvoc env fuel).trace = setupTrace i o (env.getFileExtension o) rd ++ l ∧
      ∀ e ∈ l, e.inLoop = true ∨ e = Event.flush := by
  unfold pvoc
  simp only [hi, ho, hr, hrd, hst, hf, Bool.false_eq_true, if_false, Bool.not_true]
  by_cases hpv : env.pvInitFailed = true
  · simp only [hpv, if_true]
    exact ⟨[], by simp, by simp⟩
  · have hpv0 : env.pvInitFailed = false := by simpa using hpv
    simp only [hpv0, Bool.false_eq_true, if_false]
    cases hloop : pumpLoop env rd.numChannels (timeRatio env) fuel
        (pumpStart env (setupTrace i o (env.getFileExtension o) rd)) with
    | none => exact ⟨[], by simp, by simp⟩
    | some s =>
      obtain ⟨k, _, hs, _, _⟩ := pumpLoop_some_iff_iterations env _ _ fuel _ s hloop
      obtain ⟨l, hl, hin⟩ := afterIterations_trace env rd.numChannels (timeRatio env) k
        (pumpStart env (setupTrace i o (env.getFileExtension o) rd))
      refine ⟨l ++ [Event.flush], ?_, ?_⟩
      · show s.trace ++ [Event.flush] = _
        rw [hs, hl]
        simp only [pumpStart, List.append_assoc]
      · intro e he
        rcases List.mem_append.1 he with h | h
        · exact Or.inl (hin e h)
        · exact Or.inr (List.mem_singleton.1 h)

/-- C1: a stretch ratio `r` (the parsed option text, or `1.0` when the text is
empty) with `0.1 <= r` and `r <= 10` passes the validation of line 32: the run
never ends in the "Invalid time ratio" failure, and when the two file options
resolve it goes on to `createReaderFor` on the input file.  The bounds `0.1` and
`10` themselves and the default `1.0` pass. -/
theorem ratio_in_range_passes_validation (env : Env σ) (fuel : Nat)
    (hlo : Dbl.le minRatio (timeRatio env) = true)
    (hhi : Dbl.le (timeRatio env) maxRatio = true) :
    ratioInvalid (timeRatio env) = false ∧
    (∀ text, (pvoc env fuel).outcome ≠ some (.error (.invalidTimeRatio text))) ∧
    (∀ i o, env.inputFile = .ok i → env.outputFile = .ok o →
      Event.createReaderFor i ∈ (pvoc env fuel).trace) ∧
    (env.timeArg.isEmpty = true → timeRatio env = defaultRatio) ∧
    (env.timeArg.isEmpty = false → timeRatio env = env.getDoubleValue env.timeArg) ∧
    ratioInvalid minRatio = false ∧ ratioInvalid maxRatio = false ∧
    ratioInvalid defaultRatio = false := by
  have hr := ratioInvalid_of_le _ hlo hhi
  refine ⟨hr, ?_, ?_, ?_, ?_, by decide, by decide, by decide⟩
  · intro text
    unfold pvoc
    simp only [hr, Bool.false_eq_true, if_false]
    repeat' split
    all_goals simp
  · intro i o hi ho
    unfold pvoc
    simp only [hi, ho, hr, Bool.false_eq_true, if_false]
    cases hrd : env.createReaderFor i with
    | none => simp [readerEvents]
    | some rd =>
      cases hst : env.streamStatus o with
      | some msg => simp [readerEvents]
      | none =>
        by_cases hf : env.findFormatForFileExtension (env.getFileExtension o) = true
        · have := pvoc_trace_past_setup env fuel i o rd hi ho hr hrd hst hf
          obtain ⟨l, hl, _⟩ := this
          unfold pvoc at hl
          simp only [hi, ho, hr, hrd, hst, Bool.false_eq_true, if_false] at hl
          rw [hl]
          simp [setupTrace, readerEvents]
        · simp [hf, readerEvents]
  · intro h
    simp [timeRatio, h]
  · intro h
    simp [timeRatio, h]

/-- C2, as the code has it: when the two file options resolve (the input file
exists), a ratio below `0.1` or above `10` (the parsed value of a non-empty
option text) ends the run with the failure "Invalid time ratio: " followed by
the option text, so the message contains the text and the exit code is not
zero; the only calls made before are the three `ArgumentList` lookups (among
them the existence check of the input file), so no reader and no output stream
has been created. -/
theorem invalid_ratio_fails_before_opening_files (env : Env σ) (fuel : Nat) (i o : File)
    (hi : env.inputFile = .ok i) (ho : env.outputFile = .ok o)
    (hbad : Dbl.lt (timeRatio env) minRatio = true ∨ Dbl.lt maxRatio (timeRatio env) = true) :
    (pvoc env fuel).outcome = some (.error (.invalidTimeRatio env.timeArg)) ∧
    Failure.message (.invalidTimeRatio env.timeArg) = "Invalid time ratio: " ++ env.timeArg ∧
    containsText (Failure.message (.invalidTimeRatio env.timeArg)) env.timeArg ∧
    exitCode (.error (.invalidTimeRatio env.timeArg)) ≠ 0 ∧
    (pvoc env fuel).trace = argEvents ∧
    (∀ f, Event.createReaderFor f ∉ (pvoc env fuel).trace) ∧
    (∀ f, Event.createOutputStream f ∉ (pvoc env fuel).trace) ∧
    Event.streamTruncate ∉ (pvoc env fuel).trace ∧
    (env.timeArg.isEmpty = false → timeRatio env = env.getDoubleValue env.timeArg) := by
  have hr : ratioInvalid (timeRatio env) = true := by
    simp only [ratioInvalid, Bool.or_eq_true]
    exact hbad
  have ht : (pvoc env fuel).trace = argEvents := by
    unfold pvoc
    simp only [hi, ho, hr, if_true]
  refine ⟨?_, rfl, containsText_append _ _, by simp [exitCode, failReturnCode], ht, ?_, ?_, ?_,
    ?_⟩
  · unfold pvoc
    simp only [hi, ho, hr, if_true]
  · intro f
    rw [ht]
    simp [argEvents]
  · intro f
    rw [ht]
    simp [argEvents]
  · rw [ht]
    simp [argEvents]
  · intro h
    simp [timeRatio, h]

/-- C4, as the code has it: when the run reaches the format lookup (options
resolved, ratio valid, reader created, output stream opened) and the extension
of the output path is not known to the format registry, the run fails with
"Unknown output format: " followed by the extension and a non-zero exit code;
by then the output stream has been created, positioned at 0 and truncated; no
writer is created and no block is written. -/
theorem unknown_extension_fails_after_stream_created (env : Env σ) (fuel : Nat) (i o : File)
    (rd : ReaderInfo)
    (hi : env.inputFile = .ok i) (ho : env.outputFile = .ok o)
    (hr : ratioInvalid (timeRatio env) = false)
    (hrd : env.createReaderFor i = some rd) (hst : env.streamStatus o = none)
    (hf : env.findFormatForFileExtension (env.getFileExtension o) = false) :
    (pvoc env fuel).outcome
      = some (.error (.unknownOutputFormat (env.getFileExtension o))) ∧
    Failure.message (.unknownOutputFormat (env.getFileExtension o))
      = "Unknown output format: " ++ env.getFileExtension o ∧
    containsText (Failure.message (.unknownOutputFormat (env.getFileExtension o)))
      (env.getFileExtension o) ∧
    exitCode (.error (.unknownOutputFormat (env.getFileExtension o))) ≠ 0 ∧
    (pvoc env fuel).trace
      = argEvents ++ readerEvents i ++ streamEvents o ++ formatEvents (env.getFileExtension o) ∧
    Event.createOutputStream o ∈ (pvoc env fuel).trace ∧
    Event.streamTruncate ∈ (pvoc env fuel).trace ∧
    (∀ sr ch bits md q, Event.createWriterFor sr ch bits md q ∉ (pvoc env fuel).trace) ∧
    (∀ a n, Event.write a n ∉ (pvoc env fuel).trace) := by
  have ht : (pvoc env fuel).trace
      = argEvents ++ readerEvents i ++ streamEvents o
          ++ formatEvents (env.getFileExtension o) := by
    unfold pvoc
    simp only [hi, ho, hr, hrd, hst, hf, Bool.false_eq_true, if_false, Bool.not_false, if_true]
  refine ⟨?_, rfl, containsText_append _ _, by simp [exitCode, failReturnCode], ht, ?_, ?_, ?_, ?_⟩
  · unfold pvoc
    simp only [hi, ho, hr, hrd, hst, hf, Bool.false_eq_true, if_false, Bool.not_false, if_true]
  · rw [ht]
    simp [streamEvents]
  · rw [ht]
    simp [formatEvents]
  · intro sr ch bits md q
    rw [ht]
    simp [argEvents, readerEvents, streamEvents, formatEvents]
  · intro a n
    rw [ht]
    simp [argEvents, readerEvents, streamEvents, formatEvents]

/-- C5: when the input decodes and the output extension is supported (options
resolved, ratio valid, stream opened), the writer is created with the reader's
sample rate, channel count, bit depth and metadata, and quality 0, whatever the
stretch ratio; and this is the only writer the run creates. -/
theorem writer_created_with_reader_format (env : Env σ) (fuel : Nat) (i o : File)
    (rd : ReaderInfo)
    (hi : env.inputFile = .ok i) (ho : env.outputFile = .ok o)
    (hr : ratioInvalid (timeRatio env) = false)
    (hrd : env.createReaderFor i = some rd) (hst : env.streamStatus o = none)
    (hf : env.findFormatForFileExtension (env.getFileExtension o) = true) :
    Event.createWriterFor rd.sampleRate rd.numChannels rd.bitsPerSample rd.metadataValues 0
      ∈ (pvoc env fuel).trace ∧
    (∀ sr ch bits md q, Event.createWriterFor sr ch bits md q ∈ (pvoc env fuel).trace →
      sr = rd.sampleRate ∧ ch = rd.numChannels ∧ bits = rd.bitsPerSample ∧
      md = rd.metadataValues ∧ q = 0) := by
  obtain ⟨l, hl, hin⟩ := pvoc_trace_past_setup env fuel i o rd hi ho hr hrd hst hf
  rw [hl]
  constructor
  · simp [setupTrace, writerEvents]
  · intro sr ch bits md q hmem
    rcases List.mem_append.1 hmem with h | h
    · simpa [setupTrace, argEvents, readerEvents, streamEvents, formatEvents, writerEvents]
        using h
    · rcases hin _ h with h1 | h1
      · simp [Event.inLoop] at h1
      · simp at h1

/-- An iteration whose read fails still runs the transform and hands its block
to the writer; the loop ends right after that iteration. -/
theorem failed_read_iteration (env : Env σ) (nc : Nat) (r : Dbl) (s : PumpState σ)
    (fuel : Nat) (hg : pumpGuard env s = true) (hread : readResult env s = false) :
    pumpLoop env nc r (fuel + 1) s = some (pumpBody env nc r s) ∧
    Event.write 0 bufferSize ∈ (pumpBody env nc r s).trace := by
  constructor
  · have hstop : pumpGuard env (pumpBody env nc r s) = false := by
      simp [pumpGuard, hread]
    cases fuel <;> simp [pumpLoop, hg, hstop]
  · simp [pumpEvents]

/-- The input buffer holds `bufferSize * maxRatio = 40960` samples per channel;
it is allocated in the setup, before the loop; each iteration reads into it at
offset 0 exactly the length the transform asked for, without comparing that
length with the capacity. -/
theorem inputBuffer_capacity_and_reads (env : Env σ) (nc : Nat) (r : Dbl) (s : PumpState σ)
    (i o : File) (ext : String) (rd : ReaderInfo) :
    inputBufferSamples = 40960 ∧
    Event.allocInputBuffer rd.numChannels 40960 ∈ setupTrace i o ext rd ∧
    (∀ a n p b, Event.read a n p b ∈ pumpEvents env nc r s →
      a = 0 ∧ n = requestedLen env s) := by
  refine ⟨by decide, ?_, ?_⟩
  · have h : inputBufferSamples = 40960 := by decide
    simp [setupTrace, writerEvents, h]
  · intro a n p b h
    simp only [pumpEvents, outPtrStores, List.mem_append, List.mem_cons, List.mem_map,
      List.mem_singleton, List.not_mem_nil, or_false] at h
    rcases h with ((h | h) | ⟨ch, _, h⟩) | h | h
    · cases h
    · cases h; exact ⟨rfl, rfl⟩
    · cases h
    · cases h
    · cases h

/-! ## Runs on concrete collaborators -/

theorem ratio_in_range_passes_validation_witness :
    Dbl.le minRatio (timeRatio envTenth) = true ∧
    Dbl.le (timeRatio envTenth) maxRatio = true ∧
    ratioInvalid (timeRatio envTenth) = false ∧
    Event.createReaderFor "in.wav" ∈ (pvoc envTenth 1).trace :=
  ⟨by decide, by decide,
    (ratio_in_range_passes_validation envTenth 1 (by decide) (by decide)).1,
    (ratio_in_range_passes_validation envTenth 1 (by decide) (by decide)).2.2.1
      "in.wav" "out.wav" rfl rfl⟩

theorem invalid_ratio_fails_before_opening_files_witness :
    Dbl.lt (timeRatio envAbc) minRatio = true ∧
    (pvoc envAbc 0).outcome = some (.error (.invalidTimeRatio "abc")) ∧
    (pvoc envAbc 0).trace = argEvents :=
  ⟨by decide,
    (invalid_ratio_fails_before_opening_files envAbc 0 "in.wav" "out.wav" rfl rfl
      (Or.inl (by decide))).1,
    (invalid_ratio_fails_before_opening_files envAbc 0 "in.wav" "out.wav" rfl rfl
      (Or.inl (by decide))).2.2.2.2.1⟩

/-- C2 as stated fails: with `-t abc` (parsed as `0.0`, below `0.1`) and an input
path that does not exist, the run fails inside the existence check of the input
file, with a message that does not contain `abc`. -/
theorem invalid_ratio_message_missing_when_input_absent :
    Dbl.lt (envAbcNoInput.getDoubleValue envAbcNoInput.timeArg) minRatio = true ∧
    (pvoc envAbcNoInput 0).outcome
      = some (.error (.argument "Could not find file: in.wav")) ∧
    ¬ containsText (Failure.message (.argument "Could not find file: in.wav"))
      envAbcNoInput.timeArg ∧
    (pvoc envAbcNoInput 0).trace = [Event.getExistingFileForOption INPUT_ARG] := by
  decide

theorem unknown_extension_fails_after_stream_created_witness :
    envXyz.findFormatForFileExtension (envXyz.getFileExtension "out.xyz") = false ∧
    (pvoc envXyz 0).outcome = some (.error (.unknownOutputFormat ".xyz")) ∧
    (∀ a n, Event.write a n ∉ (pvoc envXyz 0).trace) :=
  ⟨by decide,
    (unknown_extension_fails_after_stream_created envXyz 0 "in.wav" "out.xyz"
      ⟨.fin 44100 0, 2, 16, []⟩ rfl rfl (by decide) rfl rfl (by decide)).1,
    (unknown_extension_fails_after_stream_created envXyz 0 "in.wav" "out.xyz"
      ⟨.fin 44100 0, 2, 16, []⟩ rfl rfl (by decide) rfl rfl (by decide)).2.2.2.2.2.2.2.2⟩

/-- C4 as stated fails: with the output path `out.xyz` the run fails on the
unknown extension `.xyz` after it has created the output stream on `out.xyz`
and truncated it. -/
theorem unknown_extension_output_already_truncated :
    (pvoc envXyz 0).outcome = some (.error (.unknownOutputFormat ".xyz")) ∧
    Event.createOutputStream "out.xyz" ∈ (pvoc envXyz 0).trace ∧
    Event.streamTruncate ∈ (pvoc envXyz 0).trace := by
  decide

theorem writer_created_with_reader_format_witness :
    envTwo.createReaderFor "in.wav" = some ⟨.fin 44100 0, 2, 16, []⟩ ∧
    Event.createWriterFor (.fin 44100 0) 2 16 [] 0 ∈ (pvoc envTwo 5).trace :=
  ⟨rfl,
    (writer_created_with_reader_format envTwo 5 "in.wav" "out.wav"
      ⟨.fin 44100 0, 2, 16, []⟩ rfl rfl (by decide) rfl rfl (by decide)).1⟩

/-- C3 on a run whose first read fails: the iteration still runs the transform
and writes its block, the loop ends, the writer is flushed, and `pvoc` returns
0, so the exit code is 0 and no failure is reported. -/
theorem failed_read_block_written_and_exit_zero :
    (pvoc envReadFails 1).outcome = some (.ok 0) ∧
    exitCode (.ok 0) = 0 ∧
    blocksWritten (pvoc envReadFails 1).trace = 1 ∧
    (pvoc envReadFails 1).trace
      = setupTrace "in.wav" "out.wav" ".wav" ⟨.fin 44100 0, 1, 16, []⟩
        ++ [Event.nextinlen 4096 4096, Event.read 0 4096 0 false, Event.outPtrStore 0,
            Event.execute 4096 1 defaultRatio 4096, Event.write 0 4096, Event.flush] := by
  decide

theorem readerPos_is_sum_of_requests_witness :
    (afterIterations envDefault 1 defaultRatio 2 (pumpStart envDefault [])).readerPos = 8192 ∧
    Event.read 0 4096 8192 true
      ∈ (afterIterations envDefault 1 defaultRatio 3 (pumpStart envDefault [])).trace := by
  have h := readerPos_is_sum_of_requests envDefault 1 defaultRatio [] 2
    (by intro j hj; interval_cases j <;> decide)
  exact ⟨h.2.2.1.trans (by decide), by simpa using h.2.2.2.2⟩

theorem pump_writes_one_block_per_iteration_witness :
    (2 : Nat) ≤ outPtrCapacity ∧
    LogsCalls envLogging (fun calls => calls) ∧
    blocksWritten (afterIterations envLogging 2 defaultRatio 3 (pumpStart envLogging [])).world
      = 3 ∧
    samplesWritten (afterIterations envLogging 2 defaultRatio 3 (pumpStart envLogging [])).world
      = 12288 := by
  have hlog : LogsCalls envLogging (fun calls => calls) :=
    ⟨fun _ _ => rfl, fun _ _ _ _ => rfl, fun _ _ _ _ _ => rfl, fun _ _ _ => rfl⟩
  have h := pump_writes_one_block_per_iteration envLogging 2 defaultRatio
    (pumpStart envLogging []) "in.wav" "out.wav" ".wav" ⟨.fin 44100 0, 2, 16, []⟩ 3
    (fun calls => calls) (by decide) hlog
  exact ⟨by decide, hlog, h.2.2.2.1.trans (by decide), h.2.2.2.2.1.trans (by decide)⟩

/-- A complete run: `pvoc -i in.wav -o out.wav -t 2` on 10000 stereo frames with
requests of 2048 frames ends after 5 iterations with 5 blocks written, the
flush as last call, and the return value 0. -/
theorem stereo_run_completes :
    (pvoc envTwo 5).outcome = some (.ok 0) ∧
    blocksWritten (pvoc envTwo 5).trace = 5 ∧
    samplesWritten (pvoc envTwo 5).trace = 20480 ∧
    (pvoc envTwo 5).trace.getLast? = some Event.flush ∧
    (pvoc envTwo 4).outcome = none := by
  decide

end PVDoneRight
